import Mathlib

/-
  Shallow embedding of the cookie-wiki application core (src/src/App.jsx):
  the derived-view pipeline (search filter, rarity sort, tier lookup) and
  the tier-list engine (drag-and-drop moves, tier editing, defensive
  defaults), together with theorems about their behaviour.
-/

namespace CookieWiki

/- ## Data model -/

structure Tier where
  id : String
  name : String
  color : String
  cookieIds : List String
  deriving DecidableEq

structure TierList where
  id : String
  name : String
  tiers : List Tier
  deriving DecidableEq

structure Costume where
  name : String
  rarity : String
  avatarUrl : String
  spriteUrl : String
  deriving DecidableEq

/- A cookie document.  `createdAt = some t` models a Firestore timestamp of
   `t` milliseconds (an object with a `toDate` method); `none` models an
   absent field or a plain `Date` value, which every consumer in App.jsx
   reads as time 0 through the `createdAt?.toDate ? ... : 0` guard. -/
structure Cookie where
  id : String
  name : String
  avatarUrl : String
  spriteUrl : String
  headIconUrl : String
  rarity : String
  role : String
  position : String
  skillName : String
  skillDescription : String
  skillUrl : String
  elements : List String
  costumes : List Costume
  createdAt : Option Nat
  deriving DecidableEq

/- One entry of one of the attribute-registry lists (only the fields the
   derived-view pipeline reads). -/
structure AttributeEntry where
  id : String
  name : String
  deriving DecidableEq

def cookieTime (c : Cookie) : Nat := c.createdAt.getD 0

/- ## Default data (App.jsx lines 15-40) -/

def defaultCookie : Cookie :=
  { id := "default-cookie-1"
    name := "GingerBrave"
    avatarUrl := "https://static.wikia.nocookie.net/cookierunkingdom/images/b/b5/Cookie_gingerbrave_card.png/revision/latest"
    spriteUrl := "https://static.wikia.nocookie.net/cookierunkingdom/images/c/c9/Cookie0001_run.gif/revision/latest"
    headIconUrl := "https://static.wikia.nocookie.net/cookierunkingdom/images/e/e0/Cookie0001_head.png/revision/latest"
    rarity := "Common"
    role := "Charge"
    position := "Front"
    skillName := "Brave Dash"
    skillDescription := "Charges forward, dealing damage to enemies in the way. A classic move of a brave cookie."
    skillUrl := "https://static.wikia.nocookie.net/cookierunkingdom/images/e/ef/SkillIcon_0001.png/revision/latest"
    elements := []
    costumes := []
    createdAt := none }

def defaultTiers : List Tier :=
  [ { id := "S", name := "S", color := "bg-red-500", cookieIds := [] }
  , { id := "A", name := "A", color := "bg-orange-500", cookieIds := [] }
  , { id := "B", name := "B", color := "bg-yellow-500", cookieIds := [] }
  , { id := "C", name := "C", color := "bg-green-500", cookieIds := [] } ]

def defaultPvpTierList : TierList :=
  { id := "pvp-tier-list", name := "PvP Tier List", tiers := defaultTiers }

def defaultPveTierList : TierList :=
  { id := "pve-tier-list", name := "PvE Tier List", tiers := defaultTiers }

/- ## Tier-list engine: drag-and-drop move (handleDrop, App.jsx 749-766) -/

def stripCookie (cid : String) (t : Tier) : Tier :=
  { t with cookieIds := t.cookieIds.filter (fun x => x != cid) }

def removeCookieFromTiers (tiers : List Tier) (cid : String) : List Tier :=
  tiers.map (stripCookie cid)

/- Models `newTiers.find(t => t.id === targetTierId)` followed by a push on
   the found tier: only the first tier whose id matches receives the cookie. -/
def appendToFirstTier (tiers : List Tier) (tid cid : String) : List Tier :=
  match tiers with
  | [] => []
  | t :: rest =>
    if t.id = tid then { t with cookieIds := t.cookieIds ++ [cid] } :: rest
    else t :: appendToFirstTier rest tid cid

def moveCookie (l : TierList) (cid tid : String) : TierList :=
  { l with tiers :=
      if tid != "unranked" then appendToFirstTier (removeCookieFromTiers l.tiers cid) tid cid
      else removeCookieFromTiers l.tiers cid }

def applyMoves (l : TierList) (moves : List (String × String)) : TierList :=
  moves.foldl (fun acc mv => moveCookie acc mv.1 mv.2) l

/- The per-list invariant: no cookie identifier appears in the cookie-id set
   of more than one tier. -/
def atMostOneTier (tiers : List Tier) : Prop :=
  ∀ cid : String, tiers.countP (fun t => decide (cid ∈ t.cookieIds)) ≤ 1

/- ## Lemmas about stripCookie / removeCookieFromTiers / appendToFirstTier -/

theorem mem_stripCookie {x cid : String} {t : Tier} :
    x ∈ (stripCookie cid t).cookieIds ↔ x ∈ t.cookieIds ∧ x ≠ cid := by
  simp [stripCookie, List.mem_filter, bne_iff_ne]

theorem not_mem_stripCookie_self {cid : String} {t : Tier} :
    cid ∉ (stripCookie cid t).cookieIds := by
  simp [mem_stripCookie]

theorem stripCookie_id (cid : String) (t : Tier) : (stripCookie cid t).id = t.id := rfl

theorem stripCookie_eq_self_iff {cid : String} {t : Tier} :
    stripCookie cid t = t ↔ cid ∉ t.cookieIds := by
  constructor
  · intro h hmem
    have : cid ∈ (stripCookie cid t).cookieIds := by rw [h]; exact hmem
    exact not_mem_stripCookie_self this
  · intro h
    have : t.cookieIds.filter (fun x => x != cid) = t.cookieIds :=
      List.filter_eq_self.mpr (by
        intro a ha
        simp only [bne_iff_ne, ne_eq, decide_eq_true_eq]
        intro hac
        exact h (hac ▸ ha))
    simp [stripCookie, this]

theorem remove_all_not_mem (ts : List Tier) (cid : String) :
    ∀ t ∈ removeCookieFromTiers ts cid, cid ∉ t.cookieIds := by
  intro t ht
  rcases List.mem_map.mp ht with ⟨a, _, rfl⟩
  exact not_mem_stripCookie_self

theorem removeCookieFromTiers_eq_self_iff {ts : List Tier} {cid : String} :
    removeCookieFromTiers ts cid = ts ↔ ∀ t ∈ ts, cid ∉ t.cookieIds := by
  induction ts with
  | nil => simp [removeCookieFromTiers]
  | cons t rest ih =>
    simp only [removeCookieFromTiers, List.map_cons, List.cons.injEq, List.forall_mem_cons]
    rw [stripCookie_eq_self_iff]
    constructor
    · rintro ⟨h1, h2⟩
      exact ⟨h1, (ih.mp h2 : _)⟩
    · rintro ⟨h1, h2⟩
      exact ⟨h1, ih.mpr h2⟩

theorem stripCookie_idem (cid : String) (t : Tier) :
    stripCookie cid (stripCookie cid t) = stripCookie cid t :=
  stripCookie_eq_self_iff.mpr not_mem_stripCookie_self

theorem removeCookieFromTiers_idem (ts : List Tier) (cid : String) :
    removeCookieFromTiers (removeCookieFromTiers ts cid) cid = removeCookieFromTiers ts cid :=
  removeCookieFromTiers_eq_self_iff.mpr (remove_all_not_mem ts cid)

theorem remove_appendToFirstTier (ts : List Tier) (tid cid : String) :
    removeCookieFromTiers (appendToFirstTier ts tid cid) cid = removeCookieFromTiers ts cid := by
  induction ts with
  | nil => rfl
  | cons t rest ih =>
    simp only [appendToFirstTier]
    by_cases h : t.id = tid
    · rw [if_pos h]
      have hd : stripCookie cid { t with cookieIds := t.cookieIds ++ [cid] } = stripCookie cid t := by
        simp [stripCookie, List.filter_append]
      simp only [removeCookieFromTiers, List.map_cons] at ih ⊢
      rw [hd]
    · rw [if_neg h]
      simp only [removeCookieFromTiers, List.map_cons] at ih ⊢
      rw [ih]

theorem moveCookie_tiers_pos {tid : String} (h : tid ≠ "unranked") (l : TierList) (cid : String) :
    (moveCookie l cid tid).tiers = appendToFirstTier (removeCookieFromTiers l.tiers cid) tid cid := by
  simp only [moveCookie]
  rw [if_pos (bne_iff_ne.mpr h)]

theorem moveCookie_tiers_neg {tid : String} (h : tid = "unranked") (l : TierList) (cid : String) :
    (moveCookie l cid tid).tiers = removeCookieFromTiers l.tiers cid := by
  simp only [moveCookie]
  rw [if_neg (by simp [h])]

theorem TierList.fieldsEq {a b : TierList} (h1 : a.id = b.id) (h2 : a.name = b.name)
    (h3 : a.tiers = b.tiers) : a = b := by
  cases a
  cases b
  simp_all

theorem moveCookie_id_name (l : TierList) (cid tid : String) :
    (moveCookie l cid tid).id = l.id ∧ (moveCookie l cid tid).name = l.name := ⟨rfl, rfl⟩

/-- C8: applying moveCookie twice with identical arguments yields the same
resulting TierList as applying it once. -/
theorem moveCookie_idempotent (l : TierList) (cid tid : String) :
    moveCookie (moveCookie l cid tid) cid tid = moveCookie l cid tid := by
  refine TierList.fieldsEq rfl rfl ?_
  by_cases h : tid = "unranked"
  · rw [moveCookie_tiers_neg h, moveCookie_tiers_neg h, removeCookieFromTiers_idem]
  · rw [moveCookie_tiers_pos h, moveCookie_tiers_pos h,
      remove_appendToFirstTier, removeCookieFromTiers_idem]

/- ## The tier invariant is preserved by moveCookie -/

theorem countP_remove_ne {x cid : String} (h : x ≠ cid) (ts : List Tier) :
    (removeCookieFromTiers ts cid).countP (fun t => decide (x ∈ t.cookieIds)) =
      ts.countP (fun t => decide (x ∈ t.cookieIds)) := by
  rw [removeCookieFromTiers, List.countP_map]
  apply List.countP_congr
  intro t _
  simp [Function.comp, mem_stripCookie, h]

theorem countP_appendToFirstTier_ne {x cid : String} (h : x ≠ cid) (ts : List Tier) (tid : String) :
    (appendToFirstTier ts tid cid).countP (fun t => decide (x ∈ t.cookieIds)) =
      ts.countP (fun t => decide (x ∈ t.cookieIds)) := by
  induction ts with
  | nil => rfl
  | cons t rest ih =>
    by_cases ht : t.id = tid
    · simp [appendToFirstTier, ht, List.countP_cons, List.mem_append, h]
    · simp [appendToFirstTier, ht, List.countP_cons, ih]

theorem countP_appendToFirstTier_self {cid : String} {ts : List Tier} (tid : String)
    (hall : ∀ t ∈ ts, cid ∉ t.cookieIds) :
    (appendToFirstTier ts tid cid).countP (fun t => decide (cid ∈ t.cookieIds)) ≤ 1 := by
  induction ts with
  | nil => simp [appendToFirstTier]
  | cons t rest ih =>
    rw [List.forall_mem_cons] at hall
    by_cases ht : t.id = tid
    · simp only [appendToFirstTier, ht, if_true, List.countP_cons]
      have hrest : rest.countP (fun t => decide (cid ∈ t.cookieIds)) = 0 :=
        List.countP_eq_zero.mpr (by
          intro a ha
          simp only [decide_eq_true_eq]
          exact hall.2 a ha)
      simp [hrest, List.mem_append]
    · simp only [appendToFirstTier, ht, if_false, List.countP_cons]
      have hcur : decide (cid ∈ t.cookieIds) = false := by
        simp [hall.1]
      simp [hcur, ih hall.2]

theorem moveCookie_preserves_atMostOneTier {l : TierList} {cid tid : String}
    (h : atMostOneTier l.tiers) : atMostOneTier (moveCookie l cid tid).tiers := by
  intro x
  by_cases hu : tid = "unranked"
  · rw [moveCookie_tiers_neg hu]
    by_cases hx : x = cid
    · subst hx
      have h0 : (removeCookieFromTiers l.tiers x).countP (fun t => decide (x ∈ t.cookieIds)) = 0 :=
        List.countP_eq_zero.mpr (by
          intro a ha
          simp only [decide_eq_true_eq]
          exact remove_all_not_mem l.tiers x a ha)
      rw [h0]
      exact Nat.zero_le 1
    · rw [countP_remove_ne hx]
      exact h x
  · rw [moveCookie_tiers_pos hu]
    by_cases hx : x = cid
    · subst hx
      exact countP_appendToFirstTier_self tid (remove_all_not_mem l.tiers x)
    · rw [countP_appendToFirstTier_ne hx, countP_remove_ne hx]
      exact h x

/-- C2: starting from a TierList satisfying the invariant that each cookie id
appears in at most one tier, any sequence of moveCookie operations (any cookie
id, any target tier id including unranked) leaves the invariant intact. -/
theorem applyMoves_preserves_atMostOneTier (l : TierList) (moves : List (String × String))
    (h : atMostOneTier l.tiers) : atMostOneTier (applyMoves l moves).tiers := by
  induction moves generalizing l with
  | nil => exact h
  | cons mv rest ih =>
    exact ih (moveCookie l mv.1 mv.2) (moveCookie_preserves_atMostOneTier h)

theorem atMostOneTier_defaultTiers : atMostOneTier defaultTiers := by
  intro cid
  simp [defaultTiers, List.countP_cons]

/-- C2 witness: the seed PvP list satisfies the invariant and keeps it after
moving cookie1 into tier A and then into tier B. -/
theorem applyMoves_preserves_atMostOneTier_witness :
    atMostOneTier (applyMoves defaultPvpTierList [("cookie1", "A"), ("cookie1", "B")]).tiers :=
  applyMoves_preserves_atMostOneTier defaultPvpTierList [("cookie1", "A"), ("cookie1", "B")]
    atMostOneTier_defaultTiers

/- ## Dropping onto a tier id that matches no tier (C3) -/

theorem appendToFirstTier_no_match {ts : List Tier} {tid : String}
    (h : ∀ t ∈ ts, t.id ≠ tid) (cid : String) : appendToFirstTier ts tid cid = ts := by
  induction ts with
  | nil => rfl
  | cons t rest ih =>
    rw [List.forall_mem_cons] at h
    simp only [appendToFirstTier]
    rw [if_neg h.1, ih h.2]

/- A concrete tier list whose only tier S holds cookie c1. -/
def rankedOneList : TierList :=
  { id := "pvp-tier-list", name := "PvP Tier List",
    tiers := [{ id := "S", name := "S", color := "bg-red-500", cookieIds := ["c1"] }] }

/-- C3 counterexample: dropping cookie c1 onto target tier id X, which matches
no tier of the list, is not a no-op — tier S loses c1. -/
theorem moveCookie_missing_tier_counterexample :
    (rankedOneList.tiers.all (fun t => t.id != "X")) = true ∧
      moveCookie rankedOneList "c1" "X" ≠ rankedOneList := by decide

/-- C3 (amended): dropping a dragged cookie onto a target tier id that matches
no tier of the list removes the cookie from every tier and adds it to none (it
ends up unranked); the list is unchanged only when the dragged cookie was
already in no tier. -/
theorem moveCookie_missing_tier (l : TierList) (cid tid : String)
    (h : ∀ t ∈ l.tiers, t.id ≠ tid) :
    (moveCookie l cid tid).tiers = removeCookieFromTiers l.tiers cid ∧
    (∀ t ∈ (moveCookie l cid tid).tiers, cid ∉ t.cookieIds) ∧
    ((∀ t ∈ l.tiers, cid ∉ t.cookieIds) → moveCookie l cid tid = l) := by
  have htiers : (moveCookie l cid tid).tiers = removeCookieFromTiers l.tiers cid := by
    by_cases hu : tid = "unranked"
    · exact moveCookie_tiers_neg hu l cid
    · rw [moveCookie_tiers_pos hu]
      apply appendToFirstTier_no_match
      intro t ht
      rcases List.mem_map.mp ht with ⟨a, ha, rfl⟩
      rw [stripCookie_id]
      exact h a ha
  refine ⟨htiers, ?_, ?_⟩
  · rw [htiers]
    exact remove_all_not_mem l.tiers cid
  · intro hnone
    refine TierList.fieldsEq rfl rfl ?_
    rw [htiers]
    exact removeCookieFromTiers_eq_self_iff.mpr hnone

/-- C3 witness: the amended statement instantiated at the concrete list. -/
theorem moveCookie_missing_tier_witness :
    (moveCookie rankedOneList "c1" "X").tiers = removeCookieFromTiers rankedOneList.tiers "c1" ∧
    (∀ t ∈ (moveCookie rankedOneList "c1" "X").tiers, "c1" ∉ t.cookieIds) ∧
    ((∀ t ∈ rankedOneList.tiers, "c1" ∉ t.cookieIds) → moveCookie rankedOneList "c1" "X" = rankedOneList) :=
  moveCookie_missing_tier rankedOneList "c1" "X" (by decide)

/- ## addTier (TierEditorModal, App.jsx 842-845) -/

/- Models the object literal built from Date.now(): the tier id is the current
   millisecond clock rendered in decimal. The clock value is a parameter. -/
def newTier (now : Nat) : Tier :=
  { id := toString now, name := "New Tier", color := "bg-gray-500", cookieIds := [] }

def addTier (tiers : List Tier) (now : Nat) : List Tier :=
  tiers ++ [newTier now]

/- A tier whose id is the string of millisecond 0, as addTier itself would
   have produced at clock value 0. -/
def zeroIdTiers : List Tier :=
  [{ id := "0", name := "S", color := "bg-red-500", cookieIds := [] }]

/-- C4 counterexample: when the millisecond clock reads 0 and a tier with id
"0" already exists, addTier appends a tier whose id equals an existing id —
the generated identifier is not fresh. -/
theorem addTier_collision_counterexample :
    (addTier zeroIdTiers 0).map Tier.id = ["0", "0"] ∧
      ¬ ((addTier zeroIdTiers 0).map Tier.id).Nodup := by decide

/-- C4 (amended): addTier appends exactly one new tier with placeholder name
"New Tier", default color "bg-gray-500" and an empty cookie-id set, whose id
is the decimal string of the current millisecond clock; that id is distinct
from every existing tier id only under the assumption that the clock string
does not already occur among them (same-millisecond collisions are possible). -/
theorem addTier_appends_fresh (ts : List Tier) (now : Nat)
    (h : toString now ∉ ts.map Tier.id) :
    addTier ts now = ts ++ [newTier now] ∧
    (newTier now).name = "New Tier" ∧
    (newTier now).color = "bg-gray-500" ∧
    (newTier now).cookieIds = [] ∧
    (∀ t ∈ ts, t.id ≠ (newTier now).id) := by
  refine ⟨rfl, rfl, rfl, rfl, ?_⟩
  intro t ht heq
  have hm : t.id ∈ ts.map Tier.id := List.mem_map_of_mem Tier.id ht
  rw [heq] at hm
  exact h hm

/-- C4 witness: adding a tier to the seed tiers at millisecond 5 appends a
fresh tier with the placeholder fields. -/
theorem addTier_appends_fresh_witness :
    addTier defaultTiers 5 = defaultTiers ++ [newTier 5] ∧
    (newTier 5).name = "New Tier" ∧
    (newTier 5).color = "bg-gray-500" ∧
    (newTier 5).cookieIds = [] ∧
    (∀ t ∈ defaultTiers, t.id ≠ (newTier 5).id) :=
  addTier_appends_fresh defaultTiers 5 (by decide)

/- ## cookieTiersMap (App.jsx 1026-1041) -/

/- Models the inner forEach over one tier's cookieIds: each id is written
   into the map with the tier's name, later writes overwriting earlier ones. -/
def recordIds (nm : String) (ids : List String) (m : String → Option String) :
    String → Option String :=
  ids.foldl (fun m cid => fun y => if y = cid then some nm else m y) m

/- Models the forEach over one tier list's tiers. -/
def processTierList (tiers : List Tier) (m : String → Option String) :
    String → Option String :=
  tiers.foldl (fun m t => recordIds t.name t.cookieIds m) m

/- The cookie-to-tier lookup. In App.jsx one object maps each cookie id to a
   record with separate pvp and pve fields written by independent passes; the
   two components here are those two fields. -/
def cookieTiersMap (pvp pve : TierList) : String → Option String × Option String :=
  fun x => (processTierList pvp.tiers (fun _ => none) x,
            processTierList pve.tiers (fun _ => none) x)

theorem recordIds_eval (nm : String) (ids : List String) (m : String → Option String)
    (x : String) : recordIds nm ids m x = if x ∈ ids then some nm else m x := by
  simp only [recordIds]
  induction ids generalizing m with
  | nil => simp
  | cons c rest ih =>
    rw [List.foldl_cons, ih]
    by_cases hr : x ∈ rest
    · simp [hr, List.mem_cons]
    · by_cases hc : x = c
      · simp [hr, hc]
      · simp [hr, hc]

theorem processTierList_cons (t : Tier) (rest : List Tier) (m : String → Option String) :
    processTierList (t :: rest) m = processTierList rest (recordIds t.name t.cookieIds m) := rfl

theorem processTierList_not_mem {x : String} :
    ∀ (ts : List Tier) (m : String → Option String), (∀ t ∈ ts, x ∉ t.cookieIds) →
      processTierList ts m x = m x := by
  intro ts
  induction ts with
  | nil => intro m _; rfl
  | cons t rest ih =>
    intro m h
    rw [List.forall_mem_cons] at h
    rw [processTierList_cons, ih _ h.2, recordIds_eval]
    simp [h.1]

theorem atMostOneTier_of_cons {t : Tier} {rest : List Tier}
    (h : atMostOneTier (t :: rest)) : atMostOneTier rest := by
  intro y
  have hy := h y
  rw [List.countP_cons] at hy
  omega

theorem processTierList_mem {x : String} {t : Tier} :
    ∀ (ts : List Tier) (m : String → Option String), atMostOneTier ts → t ∈ ts →
      x ∈ t.cookieIds → processTierList ts m x = some t.name := by
  intro ts
  induction ts with
  | nil => intro m _ ht; simp at ht
  | cons t0 rest ih =>
    intro m hinv hmem hx
    by_cases hx0 : x ∈ t0.cookieIds
    · have hrest0 : ∀ t' ∈ rest, x ∉ t'.cookieIds := by
        intro t' ht' hx'
        have hcount := hinv x
        rw [List.countP_cons] at hcount
        have hpos : 0 < rest.countP (fun t => decide (x ∈ t.cookieIds)) :=
          List.countP_pos_iff.mpr ⟨t', ht', by simp [hx']⟩
        rw [decide_eq_true hx0, if_pos rfl] at hcount
        omega
      have hname : t.name = t0.name := by
        rcases List.mem_cons.mp hmem with h | h
        · rw [h]
        · exact absurd hx (hrest0 t h)
      rw [processTierList_cons, processTierList_not_mem rest _ hrest0, recordIds_eval]
      simp [hx0, hname]
    · have ht : t ∈ rest := by
        rcases List.mem_cons.mp hmem with h | h
        · subst h; exact absurd hx hx0
        · exact h
      rw [processTierList_cons, ih _ (atMostOneTier_of_cons hinv) ht hx]

theorem processTierList_some_iff {ts : List Tier} (hinv : atMostOneTier ts)
    (x n : String) :
    processTierList ts (fun _ => none) x = some n ↔
      ∃ t ∈ ts, x ∈ t.cookieIds ∧ t.name = n := by
  constructor
  · intro hres
    by_cases hex : ∃ t ∈ ts, x ∈ t.cookieIds
    · rcases hex with ⟨t, ht, hx⟩
      rw [processTierList_mem ts _ hinv ht hx] at hres
      exact ⟨t, ht, hx, Option.some.inj hres⟩
    · push_neg at hex
      rw [processTierList_not_mem ts _ hex] at hres
      cases hres
  · rintro ⟨t, ht, hx, rfl⟩
    exact processTierList_mem ts _ hinv ht hx

/-- C5: for tier lists satisfying the at-most-one-tier invariant, the lookup
has a pvp entry for a cookie id exactly when some pvp tier contains that id,
and the entry is the containing tier's name; symmetrically for pve. -/
theorem cookieTiersMap_spec (pvp pve : TierList)
    (hp : atMostOneTier pvp.tiers) (hq : atMostOneTier pve.tiers) :
    ∀ x n : String,
      ((cookieTiersMap pvp pve x).1 = some n ↔ ∃ t ∈ pvp.tiers, x ∈ t.cookieIds ∧ t.name = n) ∧
      ((cookieTiersMap pvp pve x).2 = some n ↔ ∃ t ∈ pve.tiers, x ∈ t.cookieIds ∧ t.name = n) ∧
      ((cookieTiersMap pvp pve x).1.isSome = true ↔ ∃ t ∈ pvp.tiers, x ∈ t.cookieIds) ∧
      ((cookieTiersMap pvp pve x).2.isSome = true ↔ ∃ t ∈ pve.tiers, x ∈ t.cookieIds) := by
  intro x n
  have h1 := processTierList_some_iff hp x
  have h2 := processTierList_some_iff hq x
  refine ⟨h1 n, h2 n, ?_, ?_⟩
  · rw [Option.isSome_iff_exists]
    constructor
    · rintro ⟨a, ha⟩
      rcases (h1 a).mp ha with ⟨t, ht, hx, _⟩
      exact ⟨t, ht, hx⟩
    · rintro ⟨t, ht, hx⟩
      exact ⟨t.name, (h1 t.name).mpr ⟨t, ht, hx, rfl⟩⟩
  · rw [Option.isSome_iff_exists]
    constructor
    · rintro ⟨a, ha⟩
      rcases (h2 a).mp ha with ⟨t, ht, hx, _⟩
      exact ⟨t, ht, hx⟩
    · rintro ⟨t, ht, hx⟩
      exact ⟨t.name, (h2 t.name).mpr ⟨t, ht, hx, rfl⟩⟩

theorem atMostOneTier_single (t : Tier) : atMostOneTier [t] := by
  intro cid
  rw [List.countP_cons, List.countP_nil]
  split <;> simp

def pvpWitnessList : TierList :=
  { id := "pvp-tier-list", name := "PvP Tier List",
    tiers := [{ id := "S", name := "S", color := "bg-red-500", cookieIds := ["x"] }] }

def pveWitnessList : TierList :=
  { id := "pve-tier-list", name := "PvE Tier List",
    tiers := [{ id := "A", name := "A", color := "bg-orange-500", cookieIds := ["x"] }] }

/-- C5 witness: with pvp = S:[x] and pve = A:[x], the lookup for x reports
pvp entry S and pve entry A. -/
theorem cookieTiersMap_spec_witness :
    (cookieTiersMap pvpWitnessList pveWitnessList "x").1 = some "S" ∧
    (cookieTiersMap pvpWitnessList pveWitnessList "x").2 = some "A" := by
  have h := cookieTiersMap_spec pvpWitnessList pveWitnessList
      (atMostOneTier_single _) (atMostOneTier_single _)
  refine ⟨(h "x" "S").1.mpr ?_, (h "x" "A").2.1.mpr ?_⟩
  · exact ⟨{ id := "S", name := "S", color := "bg-red-500", cookieIds := ["x"] },
      by simp [pvpWitnessList], by simp, rfl⟩
  · exact ⟨{ id := "A", name := "A", color := "bg-orange-500", cookieIds := ["x"] },
      by simp [pveWitnessList], by simp, rfl⟩

/- ## Search filter (filteredCookies, App.jsx 1000-1002) -/

/- Models String.prototype.toLowerCase as per-character simple lowercasing;
   the cookie names and search terms the claims range over are plain text,
   where the two coincide. -/
def toLowerStr (s : String) : String := String.mk (s.data.map Char.toLower)

def startsWithList : List Char → List Char → Bool
  | _, [] => true
  | [], _ :: _ => false
  | h :: hs, n :: ns => h == n && startsWithList hs ns

/- Models String.prototype.includes: contiguous-substring test. -/
def hasSubList (hay needle : List Char) : Bool :=
  match hay with
  | [] => needle.isEmpty
  | _ :: rest => startsWithList hay needle || hasSubList rest needle

def jsIncludes (hay needle : String) : Bool := hasSubList hay.data needle.data

def matchesSearch (c : Cookie) (searchTerm : String) : Bool :=
  jsIncludes (toLowerStr c.name) (toLowerStr searchTerm)

def filteredCookies (cookies : List Cookie) (searchTerm : String) : List Cookie :=
  cookies.filter (fun c => matchesSearch c searchTerm)

theorem startsWithList_iff (hay needle : List Char) :
    startsWithList hay needle = true ↔ ∃ r, hay = needle ++ r := by
  induction needle generalizing hay with
  | nil => simp [startsWithList]
  | cons n ns ih =>
    cases hay with
    | nil => simp [startsWithList]
    | cons h hs =>
      simp only [startsWithList, Bool.and_eq_true, beq_iff_eq, ih]
      constructor
      · rintro ⟨rfl, r, rfl⟩
        exact ⟨r, rfl⟩
      · rintro ⟨r, heq⟩
        rw [List.cons_append] at heq
        injection heq with h1 h2
        exact ⟨h1, r, h2⟩

theorem hasSubList_iff (hay needle : List Char) :
    hasSubList hay needle = true ↔ ∃ l r, hay = l ++ needle ++ r := by
  induction hay with
  | nil =>
    constructor
    · intro h
      have hn : needle = [] := by
        cases needle with
        | nil => rfl
        | cons a as => simp [hasSubList, List.isEmpty] at h
      subst hn
      exact ⟨[], [], rfl⟩
    · rintro ⟨l, r, heq⟩
      cases needle with
      | nil => rfl
      | cons a as =>
        exfalso
        cases l <;> simp at heq
  | cons c rest ih =>
    simp only [hasSubList, Bool.or_eq_true, startsWithList_iff, ih]
    constructor
    · rintro (⟨r, h⟩ | ⟨l, r, h⟩)
      · exact ⟨[], r, h⟩
      · exact ⟨c :: l, r, by simp [h]⟩
    · rintro ⟨l, r, heq⟩
      cases l with
      | nil =>
        left
        exact ⟨r, by simpa using heq⟩
      | cons x l' =>
        right
        simp only [List.cons_append] at heq
        injection heq with h1 h2
        exact ⟨l', r, h2⟩

theorem hasSubList_nil_needle (hay : List Char) : hasSubList hay [] = true := by
  cases hay <;> rfl

/-- C7: the search filter returns exactly the subsequence of cookies whose
lowercased name contains the lowercased search string as a contiguous
substring, preserving input order; the empty search string returns the full
list, and filtering is idempotent. -/
theorem filteredCookies_spec (L : List Cookie) (s : String) :
    (filteredCookies L s).Sublist L ∧
    (∀ c, c ∈ filteredCookies L s ↔
        c ∈ L ∧ ∃ l r, (toLowerStr c.name).data = l ++ (toLowerStr s).data ++ r) ∧
    filteredCookies L "" = L ∧
    filteredCookies (filteredCookies L s) s = filteredCookies L s := by
  refine ⟨List.filter_sublist L, ?_, ?_, ?_⟩
  · intro c
    simp only [filteredCookies, List.mem_filter, matchesSearch, jsIncludes, hasSubList_iff]
  · rw [filteredCookies]
    apply List.filter_eq_self.mpr
    intro c _
    show matchesSearch c "" = true
    rw [matchesSearch, jsIncludes]
    have hempty : (toLowerStr "").data = [] := rfl
    rw [hempty]
    exact hasSubList_nil_needle _
  · simp only [filteredCookies]
    rw [List.filter_filter]
    apply List.filter_congr
    intro c _
    rw [Bool.and_self]

/- ## Snapshot handlers (App.jsx 968-982) -/

/- A persisted tier-list document as delivered by a snapshot. `tiers = some ts`
   models a well-formed array field; `none` models a tiers field that is not
   an array (Array.isArray false), e.g. the legacy object shape. -/
structure RawTierListDoc where
  id : String
  name : String
  tiers : Option (List Tier)
  deriving DecidableEq

def rawDefaultPvpTierList : RawTierListDoc :=
  { id := "pvp-tier-list", name := "PvP Tier List", tiers := some defaultTiers }

def rawDefaultPveTierList : RawTierListDoc :=
  { id := "pve-tier-list", name := "PvE Tier List", tiers := some defaultTiers }

/- Models the Array.isArray check: a non-array tiers field is replaced with
   the default seed tiers. -/
def fixTierListDoc (d : RawTierListDoc) : TierList :=
  { id := d.id, name := d.name, tiers := d.tiers.getD defaultTiers }

def tierlistsHandler (data : List RawTierListDoc) : TierList × TierList :=
  (fixTierListDoc ((data.find? (fun d => d.id == "pvp-tier-list")).getD rawDefaultPvpTierList),
   fixTierListDoc ((data.find? (fun d => d.id == "pve-tier-list")).getD rawDefaultPveTierList))

/-- C6: if the persisted pvp (resp. pve) tier-list document is missing, or its
tiers field is not a well-formed array, the handler state for that list is the
default seed of four empty tiers named S, A, B, C; the substitution is a total
computation. -/
theorem tierlistsHandler_defensive (data : List RawTierListDoc) :
    ((data.find? (fun d => d.id == "pvp-tier-list") = none ∨
        (∃ d, data.find? (fun d => d.id == "pvp-tier-list") = some d ∧ d.tiers = none)) →
      (tierlistsHandler data).1.tiers = defaultTiers) ∧
    ((data.find? (fun d => d.id == "pve-tier-list") = none ∨
        (∃ d, data.find? (fun d => d.id == "pve-tier-list") = some d ∧ d.tiers = none)) →
      (tierlistsHandler data).2.tiers = defaultTiers) ∧
    defaultTiers.map Tier.name = ["S", "A", "B", "C"] ∧
    (∀ t ∈ defaultTiers, t.cookieIds = []) := by
  refine ⟨?_, ?_, by decide, by decide⟩
  · rintro (h | ⟨d, hd, hmal⟩)
    · simp [tierlistsHandler, h, fixTierListDoc, rawDefaultPvpTierList]
    · simp [tierlistsHandler, hd, fixTierListDoc, hmal]
  · rintro (h | ⟨d, hd, hmal⟩)
    · simp [tierlistsHandler, h, fixTierListDoc, rawDefaultPveTierList]
    · simp [tierlistsHandler, hd, fixTierListDoc, hmal]

/-- C6 witness: a snapshot holding a malformed pvp document and no pve
document yields the default seed tiers for both lists. -/
theorem tierlistsHandler_defensive_witness :
    (tierlistsHandler [{ id := "pvp-tier-list", name := "PvP Tier List", tiers := none }]).1.tiers
        = defaultTiers ∧
    (tierlistsHandler [{ id := "pvp-tier-list", name := "PvP Tier List", tiers := none }]).2.tiers
        = defaultTiers := by
  have h := tierlistsHandler_defensive
    [{ id := "pvp-tier-list", name := "PvP Tier List", tiers := none }]
  exact ⟨h.1 (Or.inr ⟨{ id := "pvp-tier-list", name := "PvP Tier List", tiers := none },
      by decide, rfl⟩), h.2.1 (Or.inl (by decide))⟩

/- The cookies-snapshot handler (App.jsx 971): an empty snapshot is replaced
   by the single built-in default cookie. -/
def cookiesHandler (data : List Cookie) : List Cookie :=
  if data.length > 0 then data else [defaultCookie]

/-- C9: an empty cookies snapshot yields exactly the built-in default cookie
(id default-cookie-1, name GingerBrave, rarity Common, effective creation time
0); any non-empty snapshot is kept as delivered. -/
theorem cookiesHandler_spec (data : List Cookie) :
    (data = [] → cookiesHandler data = [defaultCookie]) ∧
    (data ≠ [] → cookiesHandler data = data) ∧
    defaultCookie.id = "default-cookie-1" ∧
    defaultCookie.name = "GingerBrave" ∧
    defaultCookie.rarity = "Common" ∧
    cookieTime defaultCookie = 0 := by
  refine ⟨?_, ?_, rfl, rfl, rfl, rfl⟩
  · rintro rfl
    rfl
  · intro h
    rw [cookiesHandler, if_pos]
    exact List.length_pos.mpr h

/-- C9 witness: the empty snapshot is replaced by the default cookie, and a
snapshot already holding it is kept unchanged. -/
theorem cookiesHandler_spec_witness :
    cookiesHandler [] = [defaultCookie] ∧ cookiesHandler [defaultCookie] = [defaultCookie] :=
  ⟨(cookiesHandler_spec []).1 rfl, (cookiesHandler_spec [defaultCookie]).2.1 (by simp)⟩

/- ## Rarity sort (sortedCookies, App.jsx 1004-1018) -/

/- Models Array.prototype.indexOf: the index of the first occurrence, or -1
   when the element is absent. Because indexOf is never null or undefined,
   the nullish-coalescing fallback to Infinity written in App.jsx never
   fires; the comparator genuinely works with -1 for absent rarities. -/
def jsIndexOfFrom (l : List String) (s : String) (i : Nat) : Int :=
  match l with
  | [] => -1
  | x :: rest => if x = s then (i : Int) else jsIndexOfFrom rest s (i + 1)

def jsIndexOf (l : List String) (s : String) : Int := jsIndexOfFrom l s 0

def orderingToInt : Ordering → Int
  | Ordering.lt => -1
  | Ordering.eq => 0
  | Ordering.gt => 1

/- Models String.prototype.localeCompare, which is locale dependent, as
   code-point comparison; no claim depends on the name-sort branch. -/
def localeCompareModel (a b : String) : Int := orderingToInt (compare a b)

inductive SortOption where
  | rarity
  | name
  deriving DecidableEq

inductive SortDir where
  | asc
  | desc
  deriving DecidableEq

def sortComparison (rarities : List AttributeEntry) (opt : SortOption) (dir : SortDir)
    (a b : Cookie) : Int :=
  let comparison :=
    match opt with
    | SortOption.rarity =>
      let rarityOrder := rarities.map (fun r => r.name)
      let c := jsIndexOf rarityOrder a.rarity - jsIndexOf rarityOrder b.rarity
      if c = 0 then (cookieTime a : Int) - (cookieTime b : Int) else c
    | SortOption.name => localeCompareModel a.name b.name
  match dir with
  | SortDir.asc => comparison
  | SortDir.desc => -comparison

def insertStable {α : Type} (le : α → α → Bool) (a : α) : List α → List α
  | [] => [a]
  | b :: bs => if le b a then b :: insertStable le a bs else a :: b :: bs

/- Models Array.prototype.sort, which is stable; for the consistent
   comparators built from sortComparison a stable insertion sort computes
   the same sequence. -/
def stableSort {α : Type} (le : α → α → Bool) (l : List α) : List α :=
  l.foldl (fun acc x => insertStable le x acc) []

def sortedCookies (filtered : List Cookie) (opt : SortOption) (dir : SortDir)
    (rarities : List AttributeEntry) : List Cookie :=
  stableSort (fun a b => sortComparison rarities opt dir a b ≤ 0) filtered

def mkCookie (i n r : String) (t : Option Nat) : Cookie :=
  { id := i, name := n, avatarUrl := "", spriteUrl := "", headIconUrl := "", rarity := r,
    role := "", position := "", skillName := "", skillDescription := "", skillUrl := "",
    elements := [], costumes := [], createdAt := t }

def commonOnlyRegistry : List AttributeEntry := [{ id := "a1", name := "Common" }]

def knownRarityCookie : Cookie := mkCookie "c-common" "Alpha" "Common" (some 0)

def unknownRarityCookie : Cookie := mkCookie "c-mystery" "Mystery" "Shrouded" (some 0)

/-- C1: evaluated at a registry holding only Common and a cookie of absent
rarity Shrouded, the rarity-ascending sort places the absent-rarity cookie
FIRST, not last: indexOf yields -1 for an absent rarity (rank -1, not rank
plus-infinity), contradicting the claim. -/
theorem sortedCookies_unknown_rarity_first :
    sortedCookies [knownRarityCookie, unknownRarityCookie] SortOption.rarity SortDir.asc
        commonOnlyRegistry = [unknownRarityCookie, knownRarityCookie] ∧
    jsIndexOf (commonOnlyRegistry.map (fun r => r.name)) unknownRarityCookie.rarity = -1 ∧
    jsIndexOf (commonOnlyRegistry.map (fun r => r.name)) knownRarityCookie.rarity = 0 := by
  decide

/- ## Cookie deletion (handleDelete, App.jsx 1110-1143) -/

inductive DbOp where
  | saveTierList : TierList → DbOp
  | deleteCookie : String → DbOp
  deriving DecidableEq

/- The two conditional tier-list rewrites performed before deleting a cookie
   document: a list is written back only if stripping the cookie id changed
   it (the JSON.stringify comparison in App.jsx, which on these records is
   structural equality). -/
def handleDeleteCookieWrites (pvp pve : TierList) (cid : String) :
    Option TierList × Option TierList :=
  (if removeCookieFromTiers pvp.tiers cid ≠ pvp.tiers
     then some { pvp with tiers := removeCookieFromTiers pvp.tiers cid } else none,
   if removeCookieFromTiers pve.tiers cid ≠ pve.tiers
     then some { pve with tiers := removeCookieFromTiers pve.tiers cid } else none)

def optOps (o : Option TierList) : List DbOp :=
  match o with
  | some l => [DbOp.saveTierList l]
  | none => []

/- The ordered sequence of remote writes issued by deleting a cookie: the
   conditional pvp rewrite, then the conditional pve rewrite, then the
   deletion of the cookie document itself. -/
def handleDeleteCookieOps (pvp pve : TierList) (cid : String) : List DbOp :=
  (optOps (handleDeleteCookieWrites pvp pve cid).1 ++
    optOps (handleDeleteCookieWrites pvp pve cid).2) ++ [DbOp.deleteCookie cid]

theorem removeCookieFromTiers_ne_iff (ts : List Tier) (cid : String) :
    removeCookieFromTiers ts cid ≠ ts ↔ ∃ t ∈ ts, cid ∈ t.cookieIds := by
  constructor
  · intro h
    by_contra hno
    push_neg at hno
    exact h (removeCookieFromTiers_eq_self_iff.mpr hno)
  · rintro ⟨t, ht, hx⟩ heq
    exact (removeCookieFromTiers_eq_self_iff.mp heq) t ht hx

theorem mem_optOps {o : Option TierList} {op : DbOp} (h : op ∈ optOps o) :
    ∃ l, op = DbOp.saveTierList l := by
  cases o with
  | none => simp [optOps] at h
  | some l =>
    simp only [optOps, List.mem_singleton] at h
    exact ⟨l, h⟩

/-- C10: deleting a cookie first issues the tier-list rewrites (pvp then pve,
each written back exactly when it contained the id, with the id stripped from
every tier) and only then deletes the cookie document; stripping leaves tiers
without the id, and all tier ids, names and colors, untouched. -/
theorem handleDelete_spec (pvp pve : TierList) (cid : String) :
    (handleDeleteCookieOps pvp pve cid).getLast? = some (DbOp.deleteCookie cid) ∧
    (∀ op ∈ (handleDeleteCookieOps pvp pve cid).dropLast, ∃ l, op = DbOp.saveTierList l) ∧
    (∀ l, (handleDeleteCookieWrites pvp pve cid).1 = some l ↔
        ((∃ t ∈ pvp.tiers, cid ∈ t.cookieIds) ∧
          l = { pvp with tiers := removeCookieFromTiers pvp.tiers cid })) ∧
    (∀ l, (handleDeleteCookieWrites pvp pve cid).2 = some l ↔
        ((∃ t ∈ pve.tiers, cid ∈ t.cookieIds) ∧
          l = { pve with tiers := removeCookieFromTiers pve.tiers cid })) ∧
    (∀ t ∈ removeCookieFromTiers pvp.tiers cid, cid ∉ t.cookieIds) ∧
    (∀ t ∈ removeCookieFromTiers pve.tiers cid, cid ∉ t.cookieIds) ∧
    (∀ t : Tier, cid ∉ t.cookieIds → stripCookie cid t = t) ∧
    (∀ t : Tier, (stripCookie cid t).id = t.id ∧ (stripCookie cid t).name = t.name ∧
        (stripCookie cid t).color = t.color) := by
  refine ⟨?_, ?_, ?_, ?_, remove_all_not_mem pvp.tiers cid, remove_all_not_mem pve.tiers cid,
      fun t ht => stripCookie_eq_self_iff.mpr ht, fun t => ⟨rfl, rfl, rfl⟩⟩
  · rw [handleDeleteCookieOps, List.getLast?_concat]
  · rw [handleDeleteCookieOps, List.dropLast_concat]
    intro op hop
    rcases List.mem_append.mp hop with h | h
    · exact mem_optOps h
    · exact mem_optOps h
  · intro l
    simp only [handleDeleteCookieWrites]
    by_cases hc : removeCookieFromTiers pvp.tiers cid ≠ pvp.tiers
    · rw [if_pos hc]
      constructor
      · intro hsome
        exact ⟨(removeCookieFromTiers_ne_iff pvp.tiers cid).mp hc, (Option.some.inj hsome).symm⟩
      · rintro ⟨_, rfl⟩
        rfl
    · rw [if_neg hc]
      constructor
      · intro hsome
        cases hsome
      · rintro ⟨hex, _⟩
        exact absurd ((removeCookieFromTiers_ne_iff pvp.tiers cid).mpr hex) hc
  · intro l
    simp only [handleDeleteCookieWrites]
    by_cases hc : removeCookieFromTiers pve.tiers cid ≠ pve.tiers
    · rw [if_pos hc]
      constructor
      · intro hsome
        exact ⟨(removeCookieFromTiers_ne_iff pve.tiers cid).mp hc, (Option.some.inj hsome).symm⟩
      · rintro ⟨_, rfl⟩
        rfl
    · rw [if_neg hc]
      constructor
      · intro hsome
        cases hsome
      · rintro ⟨hex, _⟩
        exact absurd ((removeCookieFromTiers_ne_iff pve.tiers cid).mpr hex) hc

/-- C10 witness: deleting cookie x placed in both concrete lists ends with
the cookie-document deletion as the last issued operation. -/
theorem handleDelete_spec_witness :
    (handleDeleteCookieOps pvpWitnessList pveWitnessList "x").getLast?
      = some (DbOp.deleteCookie "x") :=
  (handleDelete_spec pvpWitnessList pveWitnessList "x").1

end CookieWiki
